import Mathlib

/-!
# Verification of the paperback v0 core (wire codec and document model)

Shallow embedding of `pkg/paperback-core/src/v0/mod.rs` and
`pkg/paperback-core/src/v0/wire/main_document.rs`.  Bytes are modelled as
`Nat` (a Rust `u8` is a value `< 256`; properties are stated over the
lists of naturals that arise, with range hypotheses where they matter).
Fallible Rust functions returning `Result<_, _>` are modelled as
`Option`-valued functions, `none` standing for the decode/crypto error.
External cryptographic primitives (ChaCha20-Poly1305, Ed25519, BLAKE2b,
BIP-39) and the wire helpers that live outside the two source files are
modelled from the spec; each such definition says so in its doc comment.
-/

namespace Paperback

/-! ## Varints (`unsigned_varint` crate: LEB128, little-endian base 128) -/

/-- Fuelled helper for `encodeVarint`; the fuel only serves to make the
recursion structural (so that terms reduce inside the kernel), and
`encodeVarintAux_eq` shows the result does not depend on it once it is at
least the value being encoded. -/
def encodeVarintAux : Nat → Nat → List Nat
  | 0, n => [n]
  | fuel + 1, n => if n < 128 then [n] else (n % 128 + 128) :: encodeVarintAux fuel (n / 128)

/-- LEB128 unsigned varint encoding (`unsigned_varint::encode`):
least-significant 7 bits first, continuation bit `0x80` on every byte but
the last. -/
def encodeVarint (n : Nat) : List Nat :=
  encodeVarintAux n n

/-- LEB128 unsigned varint decoding: returns the value and the unconsumed
suffix, or `none` on truncated input. -/
def decodeVarintCore : List Nat → Option (Nat × List Nat)
  | [] => none
  | b :: rest =>
    if b < 128 then some (b, rest)
    else
      match decodeVarintCore rest with
      | some (n, remain) => some (b % 128 + 128 * n, remain)
      | none => none

/-- Bounded varint decoder, modelling `unsigned_varint`'s typed decoders
(`u32`, `u64`, `usize`) which reject values that overflow the target
integer type. -/
def decodeVarintBounded (bound : Nat) (input : List Nat) : Option (Nat × List Nat) :=
  match decodeVarintCore input with
  | some (n, remain) => if n < bound then some (n, remain) else none
  | none => none

/-- `nom_helpers::u32()`: decode a `u32` varint. -/
def decodeU32 (input : List Nat) : Option (Nat × List Nat) :=
  decodeVarintBounded (2 ^ 32) input

/-- `nom_helpers::usize()`: decode a `usize` varint (64-bit platform). -/
def decodeUsize (input : List Nat) : Option (Nat × List Nat) :=
  decodeVarintBounded (2 ^ 64) input

/-- `nom_helpers::u64_tag(tag)`: decode a `u64` varint and require it to
equal the expected type prefix. -/
def decodeU64Tag (tag : Nat) (input : List Nat) : Option (List Nat) :=
  match decodeVarintBounded (2 ^ 64) input with
  | some (n, remain) => if n = tag then some remain else none
  | none => none

/-- `nom::bytes::complete::take(n)`: split off exactly `n` bytes, failing
on truncated input. -/
def takeExact (n : Nat) (l : List Nat) : Option (List Nat × List Nat) :=
  if n ≤ l.length then some (l.take n, l.drop n) else none

/-! ## Type-prefix constants (`v0/wire/prefixes.rs`) -/

/-- Modelled from the spec: the wire type-prefix constants live in
`v0/wire/prefixes.rs`, outside the sources at hand.  The spec fixes them as
stable integers compared exactly on decode; the concrete values below are
placeholders and no proof depends on the choice, only on the encoder and
decoder using the same constant and the constants being distinct. -/
def PREFIX_ED25519_PUB : Nat := 0xed

/-- Modelled from the spec: Ed25519 signature type prefix (see
`PREFIX_ED25519_PUB`). -/
def PREFIX_ED25519_SIG : Nat := 0xef

/-- Modelled from the spec: ChaCha20-Poly1305 nonce type prefix (see
`PREFIX_ED25519_PUB`). -/
def PREFIX_CHACHA20POLY1305_NONCE : Nat := 0xb401

/-- Modelled from the spec: ChaCha20-Poly1305 ciphertext type prefix (see
`PREFIX_ED25519_PUB`). -/
def PREFIX_CHACHA20POLY1305_CIPHERTEXT : Nat := 0xb402

/-- `CHACHAPOLY_NONCE_LENGTH` in `v0/mod.rs`. -/
def CHACHAPOLY_NONCE_LENGTH : Nat := 12

/-- `CHACHAPOLY_KEY_LENGTH` in `v0/mod.rs`. -/
def CHACHAPOLY_KEY_LENGTH : Nat := 32

/-! ## Data model (`v0/mod.rs`) -/

/-- `struct Identity { id_public_key: PublicKey, id_signature: Signature }`.
An Ed25519 public key is 32 raw bytes and a signature 64 raw bytes; both
are modelled as byte lists. -/
structure Identity where
  id_public_key : List Nat
  id_signature : List Nat
deriving DecidableEq

/-- `struct MainDocumentMeta { version: u32, quorum_size: u32 }`. -/
structure MainDocumentMeta where
  version : Nat
  quorum_size : Nat
deriving DecidableEq

/-- `struct MainDocumentBuilder { meta, nonce: ChaChaPolyNonce, ciphertext: Vec<u8> }`. -/
structure MainDocumentBuilder where
  meta : MainDocumentMeta
  nonce : List Nat
  ciphertext : List Nat
deriving DecidableEq

/-- `struct MainDocument { inner: MainDocumentBuilder, identity: Identity }`. -/
structure MainDocument where
  inner : MainDocumentBuilder
  identity : Identity
deriving DecidableEq

/-! ## Wire codec for the main document (`v0/wire/main_document.rs`) -/

/-- `impl ToWire for MainDocumentMeta`: varint of `version` then varint of
`quorum_size`. -/
def MainDocumentMeta.to_wire (m : MainDocumentMeta) : List Nat :=
  encodeVarint m.version ++ encodeVarint m.quorum_size

/-- `impl FromWire for MainDocumentMeta`: parse two `u32` varints; no
check is made on either field. -/
def MainDocumentMeta.from_wire_partial (input : List Nat) :
    Option (MainDocumentMeta × List Nat) :=
  match decodeU32 input with
  | none => none
  | some (version, input) =>
    match decodeU32 input with
    | none => none
    | some (quorum_size, input) =>
      some ({ version := version, quorum_size := quorum_size }, input)

/-- Modelled from the spec: the `FromWire` trait (in `v0/wire/mod.rs`,
outside the sources at hand) derives the full decode from the streaming
decode, rejecting trailing bytes. -/
def MainDocumentMeta.from_wire (input : List Nat) : Option MainDocumentMeta :=
  match MainDocumentMeta.from_wire_partial input with
  | some (x, []) => some x
  | _ => none

/-- `impl ToWire for MainDocumentBuilder`: meta wire form, then the tagged
nonce, then the tagged length-prefixed ciphertext. -/
def MainDocumentBuilder.to_wire (b : MainDocumentBuilder) : List Nat :=
  b.meta.to_wire
    ++ (encodeVarint PREFIX_CHACHA20POLY1305_NONCE ++ b.nonce)
    ++ (encodeVarint PREFIX_CHACHA20POLY1305_CIPHERTEXT
        ++ encodeVarint b.ciphertext.length ++ b.ciphertext)

/-- `impl FromWire for MainDocumentBuilder`: parse the meta, the tagged
12-byte nonce, and the tagged length-prefixed ciphertext; no check is made
on `meta.version`. -/
def MainDocumentBuilder.from_wire_partial (input : List Nat) :
    Option (MainDocumentBuilder × List Nat) :=
  match MainDocumentMeta.from_wire_partial input with
  | none => none
  | some (meta, input) =>
    match decodeU64Tag PREFIX_CHACHA20POLY1305_NONCE input with
    | none => none
    | some input =>
      match takeExact CHACHAPOLY_NONCE_LENGTH input with
      | none => none
      | some (nonce, input) =>
        match decodeU64Tag PREFIX_CHACHA20POLY1305_CIPHERTEXT input with
        | none => none
        | some input =>
          match decodeUsize input with
          | none => none
          | some (length, input) =>
            match takeExact length input with
            | none => none
            | some (ciphertext, input) =>
              some ({ meta := meta, nonce := nonce, ciphertext := ciphertext }, input)

/-- Full decode for `MainDocumentBuilder` (see
`MainDocumentMeta.from_wire`). -/
def MainDocumentBuilder.from_wire (input : List Nat) : Option MainDocumentBuilder :=
  match MainDocumentBuilder.from_wire_partial input with
  | some (x, []) => some x
  | _ => none

/-- Modelled from the spec: `impl ToWire for Identity` (in
`v0/wire/identity.rs`, outside the sources at hand):
`tag(ED25519_PUB) || pubkey(32B) || tag(ED25519_SIG) || sig(64B)`. -/
def Identity.to_wire (i : Identity) : List Nat :=
  encodeVarint PREFIX_ED25519_PUB ++ i.id_public_key
    ++ encodeVarint PREFIX_ED25519_SIG ++ i.id_signature

/-- Modelled from the spec: `impl FromWire for Identity`, inverse of
`Identity.to_wire` with fixed 32- and 64-byte fields. -/
def Identity.from_wire_partial (input : List Nat) :
    Option (Identity × List Nat) :=
  match decodeU64Tag PREFIX_ED25519_PUB input with
  | none => none
  | some input =>
    match takeExact 32 input with
    | none => none
    | some (id_public_key, input) =>
      match decodeU64Tag PREFIX_ED25519_SIG input with
      | none => none
      | some input =>
        match takeExact 64 input with
        | none => none
        | some (id_signature, input) =>
          some ({ id_public_key := id_public_key, id_signature := id_signature }, input)

/-- `impl ToWire for MainDocument`: builder wire form then identity wire
form. -/
def MainDocument.to_wire (d : MainDocument) : List Nat :=
  d.inner.to_wire ++ d.identity.to_wire

/-- `impl FromWire for MainDocument`: parse the builder and the identity,
then reject the document when `inner.meta.version != 0`. -/
def MainDocument.from_wire_partial (input : List Nat) :
    Option (MainDocument × List Nat) :=
  match MainDocumentBuilder.from_wire_partial input with
  | none => none
  | some (inner, input) =>
    match Identity.from_wire_partial input with
    | none => none
    | some (identity, input) =>
      if inner.meta.version ≠ 0 then none
      else some ({ inner := inner, identity := identity }, input)

/-- Full decode for `MainDocument` (see `MainDocumentMeta.from_wire`). -/
def MainDocument.from_wire (input : List Nat) : Option MainDocument :=
  match MainDocument.from_wire_partial input with
  | some (x, []) => some x
  | _ => none

/-! ## Well-formedness

Field invariants that are enforced by the Rust types themselves: a `u32`
field is below `2 ^ 32`, a nonce is exactly `CHACHAPOLY_NONCE_LENGTH`
bytes, an Ed25519 public key is 32 and a signature 64 bytes, and a
`Vec<u8>` has a `usize` length.  A well-formed entity additionally has
`version = 0`, as every constructor in `v0/mod.rs` fixes. -/

/-- Well-formed `MainDocumentMeta`: version 0 and `u32` quorum size. -/
def MainDocumentMeta.WF (m : MainDocumentMeta) : Prop :=
  m.version = 0 ∧ m.quorum_size < 2 ^ 32

/-- Well-formed `MainDocumentBuilder`. -/
def MainDocumentBuilder.WF (b : MainDocumentBuilder) : Prop :=
  b.meta.WF ∧ b.nonce.length = CHACHAPOLY_NONCE_LENGTH ∧ b.ciphertext.length < 2 ^ 64

/-- Well-formed `Identity`. -/
def Identity.WF (i : Identity) : Prop :=
  i.id_public_key.length = 32 ∧ i.id_signature.length = 64

/-- Well-formed `MainDocument`. -/
def MainDocument.WF (d : MainDocument) : Prop :=
  d.inner.WF ∧ d.identity.WF

instance (m : MainDocumentMeta) : Decidable m.WF := by
  unfold MainDocumentMeta.WF; infer_instance

instance (b : MainDocumentBuilder) : Decidable b.WF := by
  unfold MainDocumentBuilder.WF; infer_instance

instance (i : Identity) : Decidable i.WF := by
  unfold Identity.WF; infer_instance

instance (d : MainDocument) : Decidable d.WF := by
  unfold MainDocument.WF; infer_instance

/-! ## Multihash, Shamir shard and key shard (`v0/mod.rs` + spec §4.1) -/

/-- A multihash value (`multihash::Multihash`): a self-describing hash
`(algorithm code, digest)`; its byte form is
`varint(code) || varint(len) || digest`. -/
structure Multihash where
  code : Nat
  digest : List Nat
deriving DecidableEq

/-- `Multihash::to_bytes`: `varint(code) || varint(len) || digest`. -/
def Multihash.to_bytes (h : Multihash) : List Nat :=
  encodeVarint h.code ++ encodeVarint h.digest.length ++ h.digest

/-- Streaming decode of a multihash, inverse of `Multihash.to_bytes`. -/
def Multihash.from_wire_partial (input : List Nat) :
    Option (Multihash × List Nat) :=
  match decodeUsize input with
  | none => none
  | some (code, input) =>
    match decodeUsize input with
    | none => none
    | some (length, input) =>
      match takeExact length input with
      | none => none
      | some (digest, input) => some ({ code := code, digest := digest }, input)

/-- `Code::Blake2b256` (multicodec `0xb220`). -/
def CHECKSUM_ALGORITHM : Nat := 0xb220

/-- Modelled from the spec: the BLAKE2b-256 digest function is an external
primitive (the `multihash`/`blake2b` crates); it is modelled as a fixed
executable function returning 32 bytes.  No proof depends on the digest
values, only on the output length. -/
def blake2bModel (data : List Nat) : List Nat :=
  (List.range 32).map
    (fun i => (data.foldl (fun a b => (a * 33 + b + 1) % 7919) 5 + i) % 256)

/-- `CHECKSUM_ALGORITHM.digest(data)`: the BLAKE2b-256 digest wrapped as a
multihash. -/
def blake2b256Digest (data : List Nat) : Multihash :=
  { code := CHECKSUM_ALGORITHM, digest := blake2bModel data }

/-- Modelled from the spec: an opaque external Shamir share
(`crate::shamir::Shard`) with a stable self-delimiting wire form,
modelled as a length-prefixed byte blob. -/
structure Shard where
  data : List Nat
deriving DecidableEq

/-- Modelled from the spec: the shard's stable wire form (length-prefixed
blob). -/
def Shard.to_wire (s : Shard) : List Nat :=
  encodeVarint s.data.length ++ s.data

/-- Modelled from the spec: streaming decode of a shard, inverse of
`Shard.to_wire`. -/
def Shard.from_wire_partial (input : List Nat) :
    Option (Shard × List Nat) :=
  match decodeUsize input with
  | none => none
  | some (length, input) =>
    match takeExact length input with
    | none => none
    | some (data, input) => some ({ data := data }, input)

/-- `struct KeyShardBuilder { version: u32, doc_chksum: Multihash, shard: Shard }`. -/
structure KeyShardBuilder where
  version : Nat
  doc_chksum : Multihash
  shard : Shard
deriving DecidableEq

/-- Modelled from the spec: `KeyShardBuilder.wire = varint(version) ||
multihash(doc_chksum) || Shard.wire` (the key-shard wire codec lives in
`v0/wire/key_shard.rs`, outside the sources at hand). -/
def KeyShardBuilder.to_wire (b : KeyShardBuilder) : List Nat :=
  encodeVarint b.version ++ b.doc_chksum.to_bytes ++ b.shard.to_wire

/-- Modelled from the spec: streaming decode of a `KeyShardBuilder`,
inverse of `KeyShardBuilder.to_wire`. -/
def KeyShardBuilder.from_wire_partial (input : List Nat) :
    Option (KeyShardBuilder × List Nat) :=
  match decodeU32 input with
  | none => none
  | some (version, input) =>
    match Multihash.from_wire_partial input with
    | none => none
    | some (doc_chksum, input) =>
      match Shard.from_wire_partial input with
      | none => none
      | some (shard, input) =>
        some ({ version := version, doc_chksum := doc_chksum, shard := shard }, input)

/-- `struct KeyShard { inner: KeyShardBuilder, identity: Identity }`. -/
structure KeyShard where
  inner : KeyShardBuilder
  identity : Identity
deriving DecidableEq

/-- Modelled from the spec: `KeyShard.wire = builder.wire || Identity.wire`. -/
def KeyShard.to_wire (s : KeyShard) : List Nat :=
  s.inner.to_wire ++ s.identity.to_wire

/-- Modelled from the spec: streaming decode of a `KeyShard`; like
`MainDocument` it rejects `version ≠ 0` (spec: any decoded entity with a
nonzero version yields a decode error). -/
def KeyShard.from_wire_partial (input : List Nat) :
    Option (KeyShard × List Nat) :=
  match KeyShardBuilder.from_wire_partial input with
  | none => none
  | some (inner, input) =>
    match Identity.from_wire_partial input with
    | none => none
    | some (identity, input) =>
      if inner.version ≠ 0 then none
      else some ({ inner := inner, identity := identity }, input)

/-- Full decode for `KeyShard` (see `MainDocumentMeta.from_wire`). -/
def KeyShard.from_wire (input : List Nat) : Option KeyShard :=
  match KeyShard.from_wire_partial input with
  | some (x, []) => some x
  | _ => none

/-! ## Signing and associated data (`v0/mod.rs`) -/

/-- `ed25519_dalek::Keypair`: public and secret halves, as raw bytes. -/
structure Keypair where
  public : List Nat
  secret : List Nat
deriving DecidableEq

/-- Modelled from the spec: Ed25519 signing (`Keypair::sign`) is an
external primitive; it is modelled as a fixed executable function of the
keypair and message returning 64 bytes.  The claims only concern which
bytes are signed, never the signature values. -/
def ed25519Sign (kp : Keypair) (msg : List Nat) : List Nat :=
  (List.range 64).map
    (fun i => (msg.foldl (fun a b => (a * 31 + b + 1) % 9973) 11 + kp.secret.sum + i) % 256)

/-- `KeyShardBuilder::signable_bytes`: the builder's wire form followed by
the varint `ED25519_PUB` prefix and the raw public key. -/
def KeyShardBuilder.signable_bytes (b : KeyShardBuilder) (id_public_key : List Nat) :
    List Nat :=
  b.to_wire ++ (encodeVarint PREFIX_ED25519_PUB ++ id_public_key)

/-- `KeyShardBuilder::sign`: signs the signable bytes with the keypair and
wraps builder and identity into a `KeyShard`. -/
def KeyShardBuilder.sign (b : KeyShardBuilder) (id_keypair : Keypair) : KeyShard :=
  { inner := b,
    identity :=
      { id_public_key := id_keypair.public,
        id_signature := ed25519Sign id_keypair (b.signable_bytes id_keypair.public) } }

/-- `MainDocumentBuilder::signable_bytes`: same recipe as for key shards. -/
def MainDocumentBuilder.signable_bytes (b : MainDocumentBuilder)
    (id_public_key : List Nat) : List Nat :=
  b.to_wire ++ (encodeVarint PREFIX_ED25519_PUB ++ id_public_key)

/-- `MainDocumentBuilder::sign`. -/
def MainDocumentBuilder.sign (b : MainDocumentBuilder) (id_keypair : Keypair) :
    MainDocument :=
  { inner := b,
    identity :=
      { id_public_key := id_keypair.public,
        id_signature := ed25519Sign id_keypair (b.signable_bytes id_keypair.public) } }

/-- `MainDocumentMeta::aad`: the meta's wire form, one `b'k'` byte, then
the raw public key. -/
def MainDocumentMeta.aad (m : MainDocumentMeta) (id_public_key : List Nat) :
    List Nat :=
  m.to_wire ++ [107] ++ id_public_key

/-! ## ChaCha20-Poly1305 model (spec §6)

The cipher is an external primitive (`chacha20poly1305` crate).  It is
modelled from the spec's contract: a deterministic AEAD with 32-byte key,
12-byte nonce and a 16-byte tag appended to the ciphertext, where
decryption checks the tag and inverts encryption under the same key and
nonce, and fails on any tag mismatch or on ciphertexts shorter than the
tag. -/

/-- Modelled from the spec: the ChaCha20 keystream, as a fixed executable
function of key, nonce and length. -/
def keystreamModel (key nonce : List Nat) (len : Nat) : List Nat :=
  (List.range len).map
    (fun i => (key.sum * 3 + nonce.sum * 5 + i * 7 + 1) % 256)

/-- Modelled from the spec: the Poly1305 authentication tag (16 bytes)
over the associated data and ciphertext body, as a fixed executable
function. -/
def poly1305TagModel (key nonce aad body : List Nat) : List Nat :=
  (List.range 16).map
    (fun i =>
      ((aad ++ body).foldl (fun a b => (a * 37 + b + 1) % 7919)
          (key.sum + nonce.sum) + i) % 256)

/-- Modelled from the spec: `ChaCha20Poly1305::encrypt` — XOR the message
with the keystream and append the 16-byte tag. -/
def chacha20poly1305Encrypt (key nonce aad msg : List Nat) : List Nat :=
  let body := List.zipWith Nat.xor msg (keystreamModel key nonce msg.length)
  body ++ poly1305TagModel key nonce aad body

/-- Modelled from the spec: `ChaCha20Poly1305::decrypt` — split off and
check the 16-byte tag, then XOR with the keystream; any mismatch fails. -/
def chacha20poly1305Decrypt (key nonce aad ct : List Nat) : Option (List Nat) :=
  if 16 ≤ ct.length then
    let body := ct.take (ct.length - 16)
    let tag := ct.drop (ct.length - 16)
    if tag = poly1305TagModel key nonce aad body then
      some (List.zipWith Nat.xor body (keystreamModel key nonce body.length))
    else none
  else none

/-! ## BIP-39 mnemonic model (spec §6)

The `bip39` crate is an external primitive.  It is modelled from the
spec's contract: 32 bytes of entropy plus a checksum byte are spread over
24 lowercase words of a 2048-word list (24 × 11 = 264 = 33 × 8 bits);
decoding joins the words, validates each word and the checksum, and
recovers the entropy.  Words are byte lists (lowercase ASCII); the exact
word spellings and digit order are placeholders, faithful to the contract
that the phrase is an invertible, checksummed, lowercase encoding of the
entropy. -/

/-- Little-endian base-`base` digits, `k` of them. -/
def digitsLE (base : Nat) : Nat → Nat → List Nat
  | 0, _ => []
  | k + 1, n => n % base :: digitsLE base k (n / base)

/-- Value of a little-endian digit list. -/
def digitsLEToNat (base : Nat) : List Nat → Nat
  | [] => 0
  | d :: rest => d + base * digitsLEToNat base rest

/-- Modelled from the spec: the `n`-th word of the 2048-word list — three
lowercase ASCII letters. -/
def wordlist (n : Nat) : List Nat :=
  [97 + n / 676 % 26, 97 + n / 26 % 26, 97 + n % 26]

/-- Modelled from the spec: look a word up in the word list. -/
def wordToIndex : List Nat → Option Nat
  | [a, b, c] =>
    if 97 ≤ a ∧ a < 123 ∧ 97 ≤ b ∧ b < 123 ∧ 97 ≤ c ∧ c < 123 then
      if 676 * (a - 97) + 26 * (b - 97) + (c - 97) < 2048 then
        some (676 * (a - 97) + 26 * (b - 97) + (c - 97))
      else none
    else none
  | _ => none

/-- Look every word up; fail if any is unknown. -/
def decodeWords : List (List Nat) → Option (List Nat)
  | [] => some []
  | w :: ws =>
    match wordToIndex w, decodeWords ws with
    | some i, some is => some (i :: is)
    | _, _ => none

/-- `[String]::join(" ")` on byte lists: interleave a `0x20` separator. -/
def joinWords : List (List Nat) → List Nat
  | [] => []
  | [w] => w
  | w :: ws => w ++ 32 :: joinWords ws

/-- `str::split_whitespace` on byte lists (single spaces). -/
def splitOnByte (c : Nat) : List Nat → List (List Nat)
  | [] => [[]]
  | b :: rest =>
    if b = c then [] :: splitOnByte c rest
    else
      match splitOnByte c rest with
      | w :: ws => (b :: w) :: ws
      | [] => [[b]]

/-- `char::to_lowercase` on an ASCII byte. -/
def toLowerByte (c : Nat) : Nat :=
  if 65 ≤ c ∧ c ≤ 90 then c + 32 else c

/-- Modelled from the spec: the BIP-39 checksum byte over 32 bytes of
entropy (the first byte of SHA-256 in the real scheme), as a fixed
executable function. -/
def checksumByte (entropy : List Nat) : Nat :=
  (entropy.foldl (fun a b => (a * 131 + b + 7) % 65521) 3) % 256

/-- Modelled from the spec: `Mnemonic::from_entropy(_, English)` followed
by `into_phrase` and splitting on whitespace — 32 entropy bytes become 24
words covering entropy plus checksum. -/
def mnemonicFromEntropy (entropy : List Nat) : Option (List (List Nat)) :=
  if entropy.length = 32 then
    some ((digitsLE 2048 24
      (digitsLEToNat 256 (entropy ++ [checksumByte entropy]))).map wordlist)
  else none

/-- Modelled from the spec: `Mnemonic::from_phrase(_, English)` followed
by `entropy()` — split the phrase, look the words up, rebuild the 33
bytes, check the checksum, return the 32 entropy bytes. -/
def mnemonicFromPhrase (phrase : List Nat) : Option (List Nat) :=
  match decodeWords (splitOnByte 32 phrase) with
  | none => none
  | some is =>
    if is.length = 24 then
      let bytes := digitsLE 256 33 (digitsLEToNat 2048 is)
      if bytes.drop 32 = [checksumByte (bytes.take 32)] then
        some (bytes.take 32)
      else none
    else none

/-! ## Encrypted key shards (`v0/mod.rs`) -/

/-- `struct EncryptedKeyShard { nonce: ChaChaPolyNonce, ciphertext: Vec<u8> }`. -/
structure EncryptedKeyShard where
  nonce : List Nat
  ciphertext : List Nat
deriving DecidableEq

/-- `KeyShard::encrypt`: serialise, AEAD-encrypt the wire bytes under the
sampled key and nonce (no associated data), and turn the key into the
codeword phrase.  The key and nonce are the function's random samples,
taken here as arguments. -/
def KeyShard.encrypt (s : KeyShard) (shard_key shard_nonce : List Nat) :
    Option (EncryptedKeyShard × List (List Nat)) :=
  let wire_shard := s.to_wire
  let encrypted := chacha20poly1305Encrypt shard_key shard_nonce [] wire_shard
  match mnemonicFromEntropy shard_key with
  | none => none
  | some codewords =>
    some ({ nonce := shard_nonce, ciphertext := encrypted }, codewords)

/-- `EncryptedKeyShard::decrypt`: join the codewords with spaces and
lowercase them, recover the key from the mnemonic, AEAD-decrypt, and
parse the key shard from the recovered wire bytes. -/
def EncryptedKeyShard.decrypt (e : EncryptedKeyShard) (codewords : List (List Nat)) :
    Option KeyShard :=
  match mnemonicFromPhrase ((joinWords codewords).map toLowerByte) with
  | none => none
  | some shard_key =>
    match chacha20poly1305Decrypt shard_key e.nonce [] e.ciphertext with
    | none => none
    | some wire_shard => KeyShard.from_wire wire_shard

/-! ## Well-formedness for key shards -/

/-- Well-formed `Multihash`: `u64` code and digest length. -/
def Multihash.WF (h : Multihash) : Prop :=
  h.code < 2 ^ 64 ∧ h.digest.length < 2 ^ 64

/-- Well-formed `Shard`: `usize` data length. -/
def Shard.WF (s : Shard) : Prop :=
  s.data.length < 2 ^ 64

/-- Well-formed `KeyShardBuilder`: version 0 and well-formed fields. -/
def KeyShardBuilder.WF (b : KeyShardBuilder) : Prop :=
  b.version = 0 ∧ b.doc_chksum.WF ∧ b.shard.WF

/-- Well-formed `KeyShard`. -/
def KeyShard.WF (s : KeyShard) : Prop :=
  s.inner.WF ∧ s.identity.WF

instance (h : Multihash) : Decidable h.WF := by
  unfold Multihash.WF; infer_instance

instance (s : Shard) : Decidable s.WF := by
  unfold Shard.WF; infer_instance

instance (b : KeyShardBuilder) : Decidable b.WF := by
  unfold KeyShardBuilder.WF; infer_instance

instance (s : KeyShard) : Decidable s.WF := by
  unfold KeyShard.WF; infer_instance

/-! ## Checksum and document id (`v0/mod.rs`) -/

/-- `MainDocument::checksum`: BLAKE2b-256 multihash of the wire form. -/
def MainDocument.checksum (d : MainDocument) : Multihash :=
  blake2b256Digest d.to_wire

/-- `MainDocument::ID_LENGTH`. -/
def MainDocument.ID_LENGTH : Nat := 8

/-- The z-base-32 alphabet (`zbase32` crate, Phil Zimmermann's variant). -/
def ZBASE32_ALPHABET : List Char :=
  ['y', 'b', 'n', 'd', 'r', 'f', 'g', '8', 'e', 'j', 'k', 'm', 'c', 'p', 'q', 'x',
   'o', 't', '1', 'u', 'w', 'i', 's', 'z', 'a', '3', '4', '5', 'h', '7', '6', '9']

/-- The eight bits of a byte, most significant first. -/
def byteToBits (b : Nat) : List Bool :=
  [b.testBit 7, b.testBit 6, b.testBit 5, b.testBit 4,
   b.testBit 3, b.testBit 2, b.testBit 1, b.testBit 0]

/-- Numeric value of a bit. -/
def bitVal (b : Bool) : Nat :=
  if b then 1 else 0

/-- The z-base-32 character for a 5-bit group. -/
def zb32Char (n : Nat) : Char :=
  ZBASE32_ALPHABET.getD n 'y'

/-- z-base-32 encoding of a bit string, most significant bit first, the
final group padded with zero bits. -/
def zbase32EncodeBits : List Bool → List Char
  | [] => []
  | [a] => [zb32Char (16 * bitVal a)]
  | [a, b] => [zb32Char (16 * bitVal a + 8 * bitVal b)]
  | [a, b, c] => [zb32Char (16 * bitVal a + 8 * bitVal b + 4 * bitVal c)]
  | [a, b, c, d] => [zb32Char (16 * bitVal a + 8 * bitVal b + 4 * bitVal c + 2 * bitVal d)]
  | a :: b :: c :: d :: e :: rest =>
      zb32Char (16 * bitVal a + 8 * bitVal b + 4 * bitVal c + 2 * bitVal d + bitVal e)
        :: zbase32EncodeBits rest

/-- `zbase32::encode_full_bytes`. -/
def zbase32_encode_full_bytes (data : List Nat) : List Char :=
  zbase32EncodeBits (data.map byteToBits).flatten

/-- `MainDocument::id`: the last `ID_LENGTH` characters of the z-base-32
encoding of the checksum bytes. -/
def MainDocument.id (d : MainDocument) : List Char :=
  let encoded_chksum := zbase32_encode_full_bytes d.checksum.to_bytes
  encoded_chksum.drop (encoded_chksum.length - MainDocument.ID_LENGTH)

/-! ## Concrete sample entities (used by witnesses) -/

/-- A concrete well-formed meta. -/
def sampleMeta : MainDocumentMeta :=
  { version := 0, quorum_size := 2 }

/-- A concrete well-formed builder. -/
def sampleBuilder : MainDocumentBuilder :=
  { meta := sampleMeta, nonce := List.replicate 12 7, ciphertext := [9, 8, 7] }

/-- A concrete well-formed identity. -/
def sampleIdentity : Identity :=
  { id_public_key := List.replicate 32 5, id_signature := List.replicate 64 6 }

/-- A concrete well-formed main document. -/
def sampleDocument : MainDocument :=
  { inner := sampleBuilder, identity := sampleIdentity }

/-- A concrete main document whose quorum size is 0 (fields otherwise as
in `sampleDocument`). -/
def sampleDocumentQ0 : MainDocument :=
  { inner := { meta := { version := 0, quorum_size := 0 },
               nonce := List.replicate 12 7, ciphertext := [9, 8, 7] },
    identity := sampleIdentity }

/-- A concrete well-formed key shard. -/
def sampleKeyShard : KeyShard :=
  { inner := { version := 0,
               doc_chksum := { code := 0xb220, digest := List.replicate 32 1 },
               shard := { data := [1, 2, 3] } },
    identity := sampleIdentity }

/-! # Theorems -/

theorem encodeVarintAux_eq (f1 f2 n : Nat) (h1 : n ≤ f1) (h2 : n ≤ f2) :
    encodeVarintAux f1 n = encodeVarintAux f2 n := by
  induction f1 using Nat.strong_induction_on generalizing f2 n with
  | _ f1 ih =>
    match f1, f2 with
    | 0, 0 => rfl
    | 0, g + 1 =>
      interval_cases n
      simp [encodeVarintAux]
    | g + 1, 0 =>
      interval_cases n
      simp [encodeVarintAux]
    | g1 + 1, g2 + 1 =>
      simp only [encodeVarintAux]
      by_cases h : n < 128
      · simp [h]
      · simp only [if_neg h]
        have : n / 128 < n := Nat.div_lt_self (by omega) (by omega)
        rw [ih g1 (by omega) g2 (n / 128) (by omega) (by omega)]

/-- The defining equation of LEB128 encoding. -/
theorem encodeVarint_eq (n : Nat) :
    encodeVarint n = if n < 128 then [n] else (n % 128 + 128) :: encodeVarint (n / 128) := by
  unfold encodeVarint
  by_cases h : n < 128
  · cases n with
    | zero => simp [encodeVarintAux, h]
    | succ m => simp [encodeVarintAux, h]
  · cases n with
    | zero => omega
    | succ m =>
      simp only [encodeVarintAux, if_neg h]
      rw [encodeVarintAux_eq m ((m + 1) / 128) ((m + 1) / 128) (by omega) (by omega)]

theorem decodeVarintCore_encode (n : Nat) (rest : List Nat) :
    decodeVarintCore (encodeVarint n ++ rest) = some (n, rest) := by
  induction n using Nat.strong_induction_on with
  | _ n ih =>
    rw [encodeVarint_eq]
    by_cases h : n < 128
    · simp [h, decodeVarintCore]
    · have hrec := ih (n / 128) (Nat.div_lt_self (by omega) (by omega))
      simp only [if_neg h, List.cons_append, decodeVarintCore]
      have hge : ¬ (n % 128 + 128 < 128) := by omega
      simp only [if_neg hge, hrec]
      have heq : (n % 128 + 128) % 128 + 128 * (n / 128) = n := by omega
      rw [heq]

theorem decodeVarintBounded_encode (bound n : Nat) (rest : List Nat)
    (h : n < bound) :
    decodeVarintBounded bound (encodeVarint n ++ rest) = some (n, rest) := by
  simp [decodeVarintBounded, decodeVarintCore_encode, h]

theorem decodeU32_encode (n : Nat) (rest : List Nat) (h : n < 2 ^ 32) :
    decodeU32 (encodeVarint n ++ rest) = some (n, rest) :=
  decodeVarintBounded_encode _ n rest h

theorem decodeUsize_encode (n : Nat) (rest : List Nat) (h : n < 2 ^ 64) :
    decodeUsize (encodeVarint n ++ rest) = some (n, rest) :=
  decodeVarintBounded_encode _ n rest h

theorem decodeU64Tag_encode (tag : Nat) (rest : List Nat) (h : tag < 2 ^ 64) :
    decodeU64Tag tag (encodeVarint tag ++ rest) = some rest := by
  unfold decodeU64Tag
  rw [decodeVarintBounded_encode _ tag rest h]
  simp

theorem takeExact_append (l rest : List Nat) :
    takeExact l.length (l ++ rest) = some (l, rest) := by
  simp [takeExact, List.take_left, List.drop_left]

theorem takeExact_append_of_length (n : Nat) (l rest : List Nat)
    (h : l.length = n) :
    takeExact n (l ++ rest) = some (l, rest) := by
  subst h; exact takeExact_append l rest

/-! ## Streaming round-trip lemmas -/

theorem meta_partial_roundtrip (m : MainDocumentMeta) (t : List Nat)
    (h1 : m.version < 2 ^ 32) (h2 : m.quorum_size < 2 ^ 32) :
    MainDocumentMeta.from_wire_partial (m.to_wire ++ t) = some (m, t) := by
  simp only [MainDocumentMeta.to_wire, MainDocumentMeta.from_wire_partial,
    List.append_assoc, decodeU32_encode _ _ h1, decodeU32_encode _ _ h2]

theorem builder_partial_roundtrip (b : MainDocumentBuilder) (t : List Nat)
    (h1 : b.meta.version < 2 ^ 32) (h2 : b.meta.quorum_size < 2 ^ 32)
    (h3 : b.nonce.length = CHACHAPOLY_NONCE_LENGTH)
    (h4 : b.ciphertext.length < 2 ^ 64) :
    MainDocumentBuilder.from_wire_partial (b.to_wire ++ t) = some (b, t) := by
  simp only [MainDocumentBuilder.to_wire, MainDocumentBuilder.from_wire_partial,
    List.append_assoc,
    meta_partial_roundtrip b.meta _ h1 h2,
    decodeU64Tag_encode PREFIX_CHACHA20POLY1305_NONCE _
      (by norm_num [PREFIX_CHACHA20POLY1305_NONCE]),
    decodeU64Tag_encode PREFIX_CHACHA20POLY1305_CIPHERTEXT _
      (by norm_num [PREFIX_CHACHA20POLY1305_CIPHERTEXT]),
    takeExact_append_of_length _ _ _ h3,
    decodeUsize_encode _ _ h4, takeExact_append]

theorem identity_partial_roundtrip (i : Identity) (t : List Nat)
    (h1 : i.id_public_key.length = 32) (h2 : i.id_signature.length = 64) :
    Identity.from_wire_partial (i.to_wire ++ t) = some (i, t) := by
  simp only [Identity.to_wire, Identity.from_wire_partial, List.append_assoc,
    decodeU64Tag_encode PREFIX_ED25519_PUB _ (by norm_num [PREFIX_ED25519_PUB]),
    decodeU64Tag_encode PREFIX_ED25519_SIG _ (by norm_num [PREFIX_ED25519_SIG]),
    takeExact_append_of_length _ _ _ h1,
    takeExact_append_of_length _ _ _ h2]

theorem document_partial_roundtrip (d : MainDocument) (t : List Nat)
    (h : d.WF) :
    MainDocument.from_wire_partial (d.to_wire ++ t) = some (d, t) := by
  obtain ⟨⟨⟨hv, hq⟩, hn, hc⟩, hp, hs⟩ := h
  simp only [MainDocument.to_wire, MainDocument.from_wire_partial,
    List.append_assoc,
    builder_partial_roundtrip d.inner _ (by omega) hq hn hc,
    identity_partial_roundtrip d.identity _ hp hs]
  simp [hv]

theorem meta_full_roundtrip (m : MainDocumentMeta)
    (h1 : m.version < 2 ^ 32) (h2 : m.quorum_size < 2 ^ 32) :
    MainDocumentMeta.from_wire m.to_wire = some m := by
  have := meta_partial_roundtrip m [] h1 h2
  simp only [List.append_nil] at this
  simp [MainDocumentMeta.from_wire, this]

theorem builder_full_roundtrip (b : MainDocumentBuilder)
    (h1 : b.meta.version < 2 ^ 32) (h2 : b.meta.quorum_size < 2 ^ 32)
    (h3 : b.nonce.length = CHACHAPOLY_NONCE_LENGTH)
    (h4 : b.ciphertext.length < 2 ^ 64) :
    MainDocumentBuilder.from_wire b.to_wire = some b := by
  have := builder_partial_roundtrip b [] h1 h2 h3 h4
  simp only [List.append_nil] at this
  simp [MainDocumentBuilder.from_wire, this]

theorem document_full_roundtrip (d : MainDocument) (h : d.WF) :
    MainDocument.from_wire d.to_wire = some d := by
  have := document_partial_roundtrip d [] h
  simp only [List.append_nil] at this
  simp [MainDocument.from_wire, this]

/-- Every successfully decoded `MainDocument` has `version = 0` (the
decoder's final check). -/
theorem document_decode_version_zero (input : List Nat) :
    (∀ d rest, MainDocument.from_wire_partial input = some (d, rest) →
      d.inner.meta.version = 0) ∧
    (∀ d, MainDocument.from_wire input = some d → d.inner.meta.version = 0) := by
  have main : ∀ d rest, MainDocument.from_wire_partial input = some (d, rest) →
      d.inner.meta.version = 0 := by
    intro d rest h
    cases hb : MainDocumentBuilder.from_wire_partial input with
    | none => simp [MainDocument.from_wire_partial, hb] at h
    | some p =>
      obtain ⟨inner, input2⟩ := p
      cases hi : Identity.from_wire_partial input2 with
      | none => simp [MainDocument.from_wire_partial, hb, hi] at h
      | some q =>
        obtain ⟨ident, input3⟩ := q
        by_cases hv : inner.meta.version = 0
        · simp only [MainDocument.from_wire_partial, hb, hi, hv, ne_eq,
            not_true_eq_false, if_false, ite_false, Option.some.injEq,
            Prod.mk.injEq] at h
          obtain ⟨h1, _⟩ := h
          rw [← h1]
          exact hv
        · simp [MainDocument.from_wire_partial, hb, hi, hv] at h
  refine ⟨main, ?_⟩
  intro d h
  unfold MainDocument.from_wire at h
  cases hp : MainDocument.from_wire_partial input with
  | none => rw [hp] at h; simp at h
  | some p =>
    obtain ⟨x, rest⟩ := p
    rw [hp] at h
    cases rest with
    | nil =>
      simp only [Option.some.injEq] at h
      exact h ▸ main x [] hp
    | cons a as => simp at h

/-! ## Claim theorems -/

/-- C1: Wire round-trip — for every well-formed `MainDocumentMeta`,
`MainDocumentBuilder` and `MainDocument` (version 0, fields as
constructed), `from_wire (to_wire x) = some x`. -/
theorem claim_C1_wire_roundtrip
    (m : MainDocumentMeta) (b : MainDocumentBuilder) (d : MainDocument)
    (hm : m.WF) (hb : b.WF) (hd : d.WF) :
    MainDocumentMeta.from_wire m.to_wire = some m ∧
    MainDocumentBuilder.from_wire b.to_wire = some b ∧
    MainDocument.from_wire d.to_wire = some d := by
  obtain ⟨hm1, hm2⟩ := hm
  obtain ⟨⟨hb1, hb2⟩, hb3, hb4⟩ := hb
  exact ⟨meta_full_roundtrip m (by omega) hm2,
    builder_full_roundtrip b (by omega) hb2 hb3 hb4,
    document_full_roundtrip d hd⟩

/-- Witness for C1 at concrete sample entities. -/
theorem claim_C1_wire_roundtrip_witness :
    sampleMeta.WF ∧ sampleBuilder.WF ∧ sampleDocument.WF ∧
    (MainDocumentMeta.from_wire sampleMeta.to_wire = some sampleMeta ∧
     MainDocumentBuilder.from_wire sampleBuilder.to_wire = some sampleBuilder ∧
     MainDocument.from_wire sampleDocument.to_wire = some sampleDocument) :=
  ⟨by decide, by decide, by decide,
   claim_C1_wire_roundtrip sampleMeta sampleBuilder sampleDocument
     (by decide) (by decide) (by decide)⟩

/-- C9: Partial-decode suffix law — appending any trailing bytes `t` to a
well-formed entity's encoding, the streaming decoder succeeds, returns the
entity, and returns exactly `t` unconsumed. -/
theorem claim_C9_partial_decode_suffix
    (m : MainDocumentMeta) (b : MainDocumentBuilder) (d : MainDocument)
    (t : List Nat) (hm : m.WF) (hb : b.WF) (hd : d.WF) :
    MainDocumentMeta.from_wire_partial (m.to_wire ++ t) = some (m, t) ∧
    MainDocumentBuilder.from_wire_partial (b.to_wire ++ t) = some (b, t) ∧
    MainDocument.from_wire_partial (d.to_wire ++ t) = some (d, t) := by
  obtain ⟨hm1, hm2⟩ := hm
  obtain ⟨⟨hb1, hb2⟩, hb3, hb4⟩ := hb
  exact ⟨meta_partial_roundtrip m t (by omega) hm2,
    builder_partial_roundtrip b t (by omega) hb2 hb3 hb4,
    document_partial_roundtrip d t hd⟩

/-- Witness for C9 at concrete sample entities and trailing bytes. -/
theorem claim_C9_partial_decode_suffix_witness :
    sampleMeta.WF ∧ sampleBuilder.WF ∧ sampleDocument.WF ∧
    (MainDocumentMeta.from_wire_partial (sampleMeta.to_wire ++ [42, 42]) =
       some (sampleMeta, [42, 42]) ∧
     MainDocumentBuilder.from_wire_partial (sampleBuilder.to_wire ++ [42, 42]) =
       some (sampleBuilder, [42, 42]) ∧
     MainDocument.from_wire_partial (sampleDocument.to_wire ++ [42, 42]) =
       some (sampleDocument, [42, 42])) :=
  ⟨by decide, by decide, by decide,
   claim_C9_partial_decode_suffix sampleMeta sampleBuilder sampleDocument
     [42, 42] (by decide) (by decide) (by decide)⟩

/-- C7: Canonical wire layout of the main-document builder:
`varint(version) || varint(quorum_size) || tag(NONCE) || nonce ||
tag(CIPHERTEXT) || varint(len) || ciphertext`. -/
theorem claim_C7_builder_wire_layout (b : MainDocumentBuilder) :
    b.to_wire =
      encodeVarint b.meta.version ++ encodeVarint b.meta.quorum_size
        ++ encodeVarint PREFIX_CHACHA20POLY1305_NONCE ++ b.nonce
        ++ encodeVarint PREFIX_CHACHA20POLY1305_CIPHERTEXT
        ++ encodeVarint b.ciphertext.length ++ b.ciphertext := by
  simp [MainDocumentBuilder.to_wire, MainDocumentMeta.to_wire, List.append_assoc]

/-- C3 counterexample: `MainDocumentMeta::from_wire` happily decodes a
nonzero version — decoding `[1, 2]` yields `version = 1`, so it is not
the case that every entity carrying a version field rejects nonzero
versions on decode. -/
theorem claim_C3_counterexample :
    MainDocumentMeta.from_wire [1, 2] =
      some { version := 1, quorum_size := 2 } ∧ (1 : Nat) ≠ 0 :=
  ⟨by decide, by decide⟩

/-- C3 (amended): only `MainDocument` gates the version — every
`MainDocument` successfully decoded by `from_wire` / `from_wire_partial`
has `version = 0` (equivalently, a nonzero encoded version makes the
document decoders fail), while `MainDocumentMeta` and
`MainDocumentBuilder` decode without any version check. -/
theorem claim_C3_version_gate (input : List Nat) :
    (∀ d rest, MainDocument.from_wire_partial input = some (d, rest) →
      d.inner.meta.version = 0) ∧
    (∀ d, MainDocument.from_wire input = some d → d.inner.meta.version = 0) :=
  document_decode_version_zero input

/-- Witness for C3 (amended) at a concrete successful decode. -/
theorem claim_C3_version_gate_witness :
    MainDocument.from_wire sampleDocument.to_wire = some sampleDocument ∧
    sampleDocument.inner.meta.version = 0 :=
  ⟨by decide,
   (claim_C3_version_gate sampleDocument.to_wire).2 sampleDocument (by decide)⟩

/-- C8 counterexample: the decoder imposes no lower bound on
`quorum_size` — `[0, 0]` decodes successfully to a meta with
`quorum_size = 0 < 2`, and a whole `MainDocument` holding it decodes
successfully too. -/
theorem claim_C8_counterexample :
    MainDocumentMeta.from_wire [0, 0] =
      some { version := 0, quorum_size := 0 } ∧
    MainDocument.from_wire sampleDocumentQ0.to_wire = some sampleDocumentQ0 ∧
    sampleDocumentQ0.inner.meta.quorum_size = 0 ∧
    ¬ (2 ≤ (0 : Nat)) :=
  ⟨by decide, by decide, by decide, by decide⟩

/-- C4: AEAD associated-data layout — `MainDocumentMeta::aad` is exactly
the meta's wire bytes, one `0x6B` (ASCII `'k'`) byte, then the raw public
key bytes. -/
theorem claim_C4_aad_layout (m : MainDocumentMeta) (p : List Nat) :
    m.aad p = m.to_wire ++ [0x6B] ++ p :=
  rfl

/-- C5: Signable-bytes recipe — for both builders, `signable_bytes` is
exactly `to_wire || varint(ED25519_PUB) || pub_key`, and `sign` stores a
signature computed over exactly these bytes (keeping the builder and the
public key unchanged). -/
theorem claim_C5_signable_bytes :
    (∀ (b : KeyShardBuilder) (p : List Nat),
       b.signable_bytes p = b.to_wire ++ encodeVarint PREFIX_ED25519_PUB ++ p) ∧
    (∀ (b : MainDocumentBuilder) (p : List Nat),
       b.signable_bytes p = b.to_wire ++ encodeVarint PREFIX_ED25519_PUB ++ p) ∧
    (∀ (b : KeyShardBuilder) (kp : Keypair),
       (b.sign kp).identity.id_signature =
           ed25519Sign kp (b.signable_bytes kp.public) ∧
       (b.sign kp).identity.id_public_key = kp.public ∧
       (b.sign kp).inner = b) ∧
    (∀ (b : MainDocumentBuilder) (kp : Keypair),
       (b.sign kp).identity.id_signature =
           ed25519Sign kp (b.signable_bytes kp.public) ∧
       (b.sign kp).identity.id_public_key = kp.public ∧
       (b.sign kp).inner = b) :=
  ⟨fun b p => by simp [KeyShardBuilder.signable_bytes, List.append_assoc],
   fun b p => by simp [MainDocumentBuilder.signable_bytes, List.append_assoc],
   fun b kp => ⟨rfl, rfl, rfl⟩,
   fun b kp => ⟨rfl, rfl, rfl⟩⟩

/-! ### Lengths for the checksum and id -/

theorem blake2bModel_length (data : List Nat) :
    (blake2bModel data).length = 32 := by
  simp [blake2bModel]

theorem checksum_bytes_length (d : MainDocument) :
    d.checksum.to_bytes.length = 36 := by
  show (encodeVarint CHECKSUM_ALGORITHM
      ++ encodeVarint (blake2bModel d.to_wire).length
      ++ blake2bModel d.to_wire).length = 36
  rw [blake2bModel_length]
  simp only [List.length_append, blake2bModel_length]
  norm_num [show (encodeVarint CHECKSUM_ALGORITHM).length = 3 from by decide,
    show (encodeVarint 32).length = 1 from by decide]

theorem bytesToBits_length (data : List Nat) :
    (data.map byteToBits).flatten.length = 8 * data.length := by
  induction data with
  | nil => simp
  | cons b rest ih =>
    simp only [List.map_cons, List.flatten_cons, List.length_append, ih,
      List.length_cons]
    simp [byteToBits]
    omega

theorem zbase32EncodeBits_length (l : List Bool) :
    (zbase32EncodeBits l).length = (l.length + 4) / 5 := by
  induction l using zbase32EncodeBits.induct with
  | case1 => simp [zbase32EncodeBits]
  | case2 a => simp [zbase32EncodeBits]
  | case3 a b => simp [zbase32EncodeBits]
  | case4 a b c => simp [zbase32EncodeBits]
  | case5 a b c d => simp [zbase32EncodeBits]
  | case6 a b c d e rest ih =>
    simp only [zbase32EncodeBits, List.length_cons, ih]
    omega

theorem zbase32_checksum_length (d : MainDocument) :
    (zbase32_encode_full_bytes d.checksum.to_bytes).length = 58 := by
  unfold zbase32_encode_full_bytes
  rw [zbase32EncodeBits_length, bytesToBits_length, checksum_bytes_length]

/-- C10: Totality of `id()` — the z-base-32 encoding of the 36-byte
checksum multihash always has length 58 ≥ 8, so the suffix slice in
`MainDocument::id` is in bounds and the returned id has exactly
`ID_LENGTH = 8` characters. -/
theorem claim_C10_id_total (d : MainDocument) :
    8 ≤ (zbase32_encode_full_bytes d.checksum.to_bytes).length ∧
    d.id.length = MainDocument.ID_LENGTH := by
  have h := zbase32_checksum_length d
  refine ⟨by omega, ?_⟩
  show ((zbase32_encode_full_bytes d.checksum.to_bytes).drop
      ((zbase32_encode_full_bytes d.checksum.to_bytes).length -
        MainDocument.ID_LENGTH)).length = MainDocument.ID_LENGTH
  rw [List.length_drop, h]
  rfl

/-- C6: Document ID derivation and stability — `checksum()` is the
BLAKE2b-256 multihash of the wire form, `id()` is the last `ID_LENGTH = 8`
characters of the z-base-32 encoding of the checksum bytes, and a wire
round-trip leaves the id unchanged. -/
theorem claim_C6_id_derivation (d : MainDocument) (h : d.WF) :
    d.checksum = blake2b256Digest d.to_wire ∧
    d.id = (zbase32_encode_full_bytes d.checksum.to_bytes).drop
        ((zbase32_encode_full_bytes d.checksum.to_bytes).length -
          MainDocument.ID_LENGTH) ∧
    ∀ d', MainDocument.from_wire d.to_wire = some d' → d'.id = d.id := by
  refine ⟨rfl, rfl, ?_⟩
  intro d' hd'
  rw [document_full_roundtrip d h] at hd'
  simp only [Option.some.injEq] at hd'
  rw [hd']

/-- Witness for C6 at the concrete sample document. -/
theorem claim_C6_id_derivation_witness :
    sampleDocument.WF ∧
    sampleDocument.checksum = blake2b256Digest sampleDocument.to_wire ∧
    (∀ d', MainDocument.from_wire sampleDocument.to_wire = some d' →
        d'.id = sampleDocument.id) :=
  ⟨by decide,
   (claim_C6_id_derivation sampleDocument (by decide)).1,
   (claim_C6_id_derivation sampleDocument (by decide)).2.2⟩

/-- C8 (amended): wire decoding enforces no quorum-size invariant — a
meta with version 0 and any `u32` quorum size, including values below 2,
is decoded successfully by `from_wire`. -/
theorem claim_C8_decode_unconstrained (q : Nat) (h : q < 2 ^ 32) :
    MainDocumentMeta.from_wire
        (MainDocumentMeta.to_wire { version := 0, quorum_size := q }) =
      some { version := 0, quorum_size := q } :=
  meta_full_roundtrip _ (by norm_num) h

/-- Witness for C8 (amended) at `quorum_size = 0`. -/
theorem claim_C8_decode_unconstrained_witness :
    (0 : Nat) < 2 ^ 32 ∧
    MainDocumentMeta.from_wire
        (MainDocumentMeta.to_wire { version := 0, quorum_size := 0 }) =
      some { version := 0, quorum_size := 0 } :=
  ⟨by norm_num, claim_C8_decode_unconstrained 0 (by norm_num)⟩

/-! ### Base-conversion lemmas for the mnemonic model -/

theorem digitsLE_length (base k n : Nat) :
    (digitsLE base k n).length = k := by
  induction k generalizing n with
  | zero => rfl
  | succ m ih => simp [digitsLE, ih]

theorem digitsLE_lt (base k n : Nat) (hb : 0 < base) :
    ∀ d ∈ digitsLE base k n, d < base := by
  induction k generalizing n with
  | zero => simp [digitsLE]
  | succ m ih =>
    intro d hd
    simp only [digitsLE, List.mem_cons] at hd
    rcases hd with h | h
    · exact h ▸ Nat.mod_lt _ hb
    · exact ih (n / base) d h

theorem digitsLEToNat_digitsLE (base k n : Nat) (hb : 1 < base)
    (h : n < base ^ k) :
    digitsLEToNat base (digitsLE base k n) = n := by
  induction k generalizing n with
  | zero =>
    simp only [pow_zero, Nat.lt_one_iff] at h
    simp [digitsLE, digitsLEToNat, h]
  | succ m ih =>
    have hdiv : n / base < base ^ m := by
      rw [Nat.div_lt_iff_lt_mul (by omega)]
      calc n < base ^ (m + 1) := h
        _ = base ^ m * base := by ring
    simp only [digitsLE, digitsLEToNat, ih (n / base) hdiv]
    exact Nat.mod_add_div n base

theorem digitsLEToNat_lt (base : Nat) (ds : List Nat)
    (h : ∀ d ∈ ds, d < base) :
    digitsLEToNat base ds < base ^ ds.length := by
  induction ds with
  | nil => simp [digitsLEToNat]
  | cons d rest ih =>
    have hd : d < base := h d (by simp)
    have hrest := ih (fun x hx => h x (by simp [hx]))
    simp only [digitsLEToNat, List.length_cons, pow_succ]
    calc d + base * digitsLEToNat base rest
        < base + base * digitsLEToNat base rest := by omega
      _ = base * (digitsLEToNat base rest + 1) := by ring
      _ ≤ base * base ^ rest.length := by
          exact Nat.mul_le_mul_left base (by omega)
      _ = base ^ rest.length * base := by ring

theorem digitsLE_digitsLEToNat (base : Nat) (ds : List Nat) (hb : 1 < base)
    (h : ∀ d ∈ ds, d < base) :
    digitsLE base ds.length (digitsLEToNat base ds) = ds := by
  induction ds with
  | nil => rfl
  | cons d rest ih =>
    have hd : d < base := h d (by simp)
    simp only [digitsLEToNat, List.length_cons, digitsLE]
    have hmod : (d + base * digitsLEToNat base rest) % base = d := by
      rw [Nat.add_mul_mod_self_left]
      exact Nat.mod_eq_of_lt hd
    have hdiv : (d + base * digitsLEToNat base rest) / base =
        digitsLEToNat base rest := by
      rw [Nat.add_mul_div_left _ _ (by omega), Nat.div_eq_of_lt hd, Nat.zero_add]
    rw [hmod, hdiv, ih (fun x hx => h x (by simp [hx]))]

/-! ### Word-list lemmas for the mnemonic model -/

theorem wordToIndex_wordlist (n : Nat) (h : n < 2048) :
    wordToIndex (wordlist n) = some n := by
  have h676 : n / 676 % 26 = n / 676 := Nat.mod_eq_of_lt (by omega)
  simp only [wordlist, wordToIndex, h676]
  have harith : 676 * (97 + n / 676 - 97) + 26 * (97 + n / 26 % 26 - 97)
      + (97 + n % 26 - 97) = n := by omega
  rw [if_pos (by omega), harith, if_pos h]

theorem wordlist_bytes (n : Nat) :
    ∀ b ∈ wordlist n, 97 ≤ b ∧ b < 123 := by
  intro b hb
  have h1 : n / 676 % 26 < 26 := Nat.mod_lt _ (by omega)
  have h2 : n / 26 % 26 < 26 := Nat.mod_lt _ (by omega)
  have h3 : n % 26 < 26 := Nat.mod_lt _ (by omega)
  simp only [wordlist, List.mem_cons, List.not_mem_nil, or_false] at hb
  rcases hb with rfl | rfl | rfl <;> exact ⟨by omega, by omega⟩

/-! ### Phrase join/split lemmas -/

theorem splitOnByte_not_mem (c : Nat) (l : List Nat) (h : c ∉ l) :
    splitOnByte c l = [l] := by
  induction l with
  | nil => rfl
  | cons b rest ih =>
    have hb : b ≠ c := fun hbc => h (by simp [hbc])
    have hrest := ih (fun hm => h (by simp [hm]))
    simp only [splitOnByte, if_neg hb, hrest]

theorem splitOnByte_append_cons (c : Nat) (w t : List Nat) (hw : c ∉ w) :
    splitOnByte c (w ++ c :: t) = w :: splitOnByte c t := by
  induction w with
  | nil => simp [splitOnByte]
  | cons b w2 ih =>
    have hb : b ≠ c := fun hbc => hw (by simp [hbc])
    have hw2 := ih (fun hm => hw (by simp [hm]))
    simp only [List.cons_append, splitOnByte, if_neg hb, List.append_eq, hw2]

theorem splitOnByte_joinWords (ws : List (List Nat)) (hne : ws ≠ [])
    (hw : ∀ w ∈ ws, (32 : Nat) ∉ w) :
    splitOnByte 32 (joinWords ws) = ws := by
  induction ws with
  | nil => exact absurd rfl hne
  | cons w rest ih =>
    cases rest with
    | nil => exact splitOnByte_not_mem 32 w (hw w (by simp))
    | cons w2 rest2 =>
      show splitOnByte 32 (w ++ 32 :: joinWords (w2 :: rest2)) = _
      rw [splitOnByte_append_cons 32 w _ (hw w (by simp))]
      rw [ih (by simp) (fun x hx => hw x (by simp [hx]))]

theorem decodeWords_map_wordlist (is : List Nat) (h : ∀ i ∈ is, i < 2048) :
    decodeWords (is.map wordlist) = some is := by
  induction is with
  | nil => rfl
  | cons i rest ih =>
    simp only [List.map_cons, decodeWords,
      wordToIndex_wordlist i (h i (by simp)),
      ih (fun x hx => h x (by simp [hx]))]

theorem map_toLowerByte_id (l : List Nat) (h : ∀ b ∈ l, ¬ (65 ≤ b ∧ b ≤ 90)) :
    l.map toLowerByte = l := by
  induction l with
  | nil => rfl
  | cons b rest ih =>
    simp only [List.map_cons, toLowerByte, if_neg (h b (by simp)),
      ih (fun x hx => h x (by simp [hx]))]

theorem joinWords_mem (ws : List (List Nat)) (b : Nat)
    (h : b ∈ joinWords ws) : b = 32 ∨ ∃ w ∈ ws, b ∈ w := by
  induction ws with
  | nil => simp [joinWords] at h
  | cons w rest ih =>
    cases rest with
    | nil => exact Or.inr ⟨w, by simp, h⟩
    | cons w2 rest2 =>
      rw [show joinWords (w :: w2 :: rest2) = w ++ 32 :: joinWords (w2 :: rest2)
        from rfl, List.mem_append, List.mem_cons] at h
      rcases h with h | h | h
      · exact Or.inr ⟨w, by simp, h⟩
      · exact Or.inl h
      · rcases ih h with h2 | ⟨w3, hw3, hb3⟩
        · exact Or.inl h2
        · exact Or.inr ⟨w3, by simp [hw3], hb3⟩

/-! ### The mnemonic round trip -/

theorem checksumByte_lt (entropy : List Nat) : checksumByte entropy < 256 :=
  Nat.mod_lt _ (by omega)

theorem mnemonic_roundtrip (key : List Nat) (h1 : key.length = 32)
    (h2 : ∀ b ∈ key, b < 256) :
    mnemonicFromEntropy key =
      some ((digitsLE 2048 24
        (digitsLEToNat 256 (key ++ [checksumByte key]))).map wordlist) ∧
    mnemonicFromPhrase
        ((joinWords ((digitsLE 2048 24
            (digitsLEToNat 256 (key ++ [checksumByte key]))).map wordlist)).map
          toLowerByte) = some key := by
  have hN_lt : digitsLEToNat 256 (key ++ [checksumByte key]) < 256 ^ 33 := by
    have hall : ∀ b ∈ key ++ [checksumByte key], b < 256 := by
      intro b hb
      rcases List.mem_append.mp hb with h | h
      · exact h2 b h
      · simp only [List.mem_singleton] at h
        exact h ▸ checksumByte_lt key
    have := digitsLEToNat_lt 256 (key ++ [checksumByte key]) hall
    simpa [h1] using this
  have hpow : (256 : Nat) ^ 33 = 2048 ^ 24 := by norm_num
  constructor
  · simp [mnemonicFromEntropy, h1]
  · have his_lt : ∀ i ∈ digitsLE 2048 24
        (digitsLEToNat 256 (key ++ [checksumByte key])), i < 2048 :=
      digitsLE_lt 2048 24 _ (by omega)
    have hwords_low : ∀ w ∈ (digitsLE 2048 24
        (digitsLEToNat 256 (key ++ [checksumByte key]))).map wordlist,
        ∀ b ∈ w, 97 ≤ b ∧ b < 123 := by
      intro w hw b hb
      obtain ⟨i, _, rfl⟩ := List.mem_map.mp hw
      exact wordlist_bytes i b hb
    have h32 : ∀ w ∈ (digitsLE 2048 24
        (digitsLEToNat 256 (key ++ [checksumByte key]))).map wordlist,
        (32 : Nat) ∉ w := by
      intro w hw hmem
      have := (hwords_low w hw 32 hmem).1
      omega
    have hne : (digitsLE 2048 24
        (digitsLEToNat 256 (key ++ [checksumByte key]))).map wordlist ≠ [] := by
      intro hcontra
      have := congrArg List.length hcontra
      simp [digitsLE_length] at this
    rw [map_toLowerByte_id _ (by
      intro b hb
      rcases joinWords_mem _ b hb with h | ⟨w, hw, hbw⟩
      · omega
      · have := hwords_low w hw b hbw
        omega)]
    have hlen : (digitsLE 2048 24
        (digitsLEToNat 256 (key ++ [checksumByte key]))).length = 24 :=
      digitsLE_length 2048 24 _
    have hbytes : digitsLE 256 33 (digitsLEToNat 256 (key ++ [checksumByte key]))
        = key ++ [checksumByte key] := by
      have hall : ∀ b ∈ key ++ [checksumByte key], b < 256 := by
        intro b hb
        rcases List.mem_append.mp hb with h | h
        · exact h2 b h
        · simp only [List.mem_singleton] at h
          exact h ▸ checksumByte_lt key
      have := digitsLE_digitsLEToNat 256 (key ++ [checksumByte key])
        (by omega) hall
      simpa [h1] using this
    have htake : (key ++ [checksumByte key]).take 32 = key := by
      rw [← h1]
      exact List.take_left key _
    have hdrop : (key ++ [checksumByte key]).drop 32 = [checksumByte key] := by
      rw [← h1]
      exact List.drop_left key _
    simp only [mnemonicFromPhrase, splitOnByte_joinWords _ hne h32,
      decodeWords_map_wordlist _ his_lt, hlen]
    rw [digitsLEToNat_digitsLE 2048 24 _ (by omega) (hpow ▸ hN_lt), hbytes]
    simp [htake, hdrop]

/-! ### AEAD round trip -/

theorem keystreamModel_length (key nonce : List Nat) (len : Nat) :
    (keystreamModel key nonce len).length = len := by
  simp [keystreamModel]

theorem poly1305TagModel_length (key nonce aad body : List Nat) :
    (poly1305TagModel key nonce aad body).length = 16 := by
  simp [poly1305TagModel]

theorem zipWith_xor_invol (msg ks : List Nat) (h : ks.length = msg.length) :
    List.zipWith Nat.xor (List.zipWith Nat.xor msg ks) ks = msg := by
  induction msg generalizing ks with
  | nil => simp
  | cons m mrest ih =>
    cases ks with
    | nil => simp at h
    | cons k krest =>
      simp only [List.zipWith_cons_cons, List.cons.injEq]
      exact ⟨Nat.xor_cancel_right k m, ih krest (by simpa using h)⟩

theorem chacha_roundtrip (key nonce aad msg : List Nat) :
    chacha20poly1305Decrypt key nonce aad
      (chacha20poly1305Encrypt key nonce aad msg) = some msg := by
  have hkslen := keystreamModel_length key nonce msg.length
  have hblen : (List.zipWith Nat.xor msg (keystreamModel key nonce msg.length)).length
      = msg.length := by
    rw [List.length_zipWith, hkslen, Nat.min_self]
  have htake : (List.zipWith Nat.xor msg (keystreamModel key nonce msg.length)
      ++ poly1305TagModel key nonce aad
          (List.zipWith Nat.xor msg (keystreamModel key nonce msg.length))).take
        msg.length
      = List.zipWith Nat.xor msg (keystreamModel key nonce msg.length) := by
    have h := List.take_left
      (List.zipWith Nat.xor msg (keystreamModel key nonce msg.length))
      (poly1305TagModel key nonce aad
        (List.zipWith Nat.xor msg (keystreamModel key nonce msg.length)))
    rw [hblen] at h
    exact h
  have hdrop : (List.zipWith Nat.xor msg (keystreamModel key nonce msg.length)
      ++ poly1305TagModel key nonce aad
          (List.zipWith Nat.xor msg (keystreamModel key nonce msg.length))).drop
        msg.length
      = poly1305TagModel key nonce aad
          (List.zipWith Nat.xor msg (keystreamModel key nonce msg.length)) := by
    have h := List.drop_left
      (List.zipWith Nat.xor msg (keystreamModel key nonce msg.length))
      (poly1305TagModel key nonce aad
        (List.zipWith Nat.xor msg (keystreamModel key nonce msg.length)))
    rw [hblen] at h
    exact h
  simp only [chacha20poly1305Encrypt, chacha20poly1305Decrypt, List.length_append,
    poly1305TagModel_length, hblen, Nat.add_sub_cancel]
  rw [if_pos (Nat.le_add_left 16 msg.length)]
  simp only [htake, hdrop, if_pos rfl, hblen]
  rw [zipWith_xor_invol msg _ hkslen]
  simp

/-! ### Key-shard wire round trip -/

theorem multihash_partial_roundtrip (h : Multihash) (t : List Nat)
    (h1 : h.code < 2 ^ 64) (h2 : h.digest.length < 2 ^ 64) :
    Multihash.from_wire_partial (h.to_bytes ++ t) = some (h, t) := by
  simp only [Multihash.to_bytes, Multihash.from_wire_partial, List.append_assoc,
    decodeUsize_encode _ _ h1, decodeUsize_encode _ _ h2, takeExact_append]

theorem shard_partial_roundtrip (s : Shard) (t : List Nat)
    (h : s.data.length < 2 ^ 64) :
    Shard.from_wire_partial (s.to_wire ++ t) = some (s, t) := by
  simp only [Shard.to_wire, Shard.from_wire_partial, List.append_assoc,
    decodeUsize_encode _ _ h, takeExact_append]

theorem keyshardbuilder_partial_roundtrip (b : KeyShardBuilder) (t : List Nat)
    (hv : b.version < 2 ^ 32) (hc : b.doc_chksum.WF) (hs : b.shard.WF) :
    KeyShardBuilder.from_wire_partial (b.to_wire ++ t) = some (b, t) := by
  obtain ⟨hc1, hc2⟩ := hc
  simp only [KeyShardBuilder.to_wire, KeyShardBuilder.from_wire_partial,
    List.append_assoc, decodeU32_encode _ _ hv,
    multihash_partial_roundtrip b.doc_chksum _ hc1 hc2,
    shard_partial_roundtrip b.shard _ hs]

theorem keyshard_partial_roundtrip (s : KeyShard) (t : List Nat) (h : s.WF) :
    KeyShard.from_wire_partial (s.to_wire ++ t) = some (s, t) := by
  obtain ⟨⟨hv, hc, hsh⟩, hp, hsig⟩ := h
  simp only [KeyShard.to_wire, KeyShard.from_wire_partial, List.append_assoc,
    keyshardbuilder_partial_roundtrip s.inner _ (by omega) hc hsh,
    identity_partial_roundtrip s.identity _ hp hsig]
  simp [hv]

theorem keyshard_full_roundtrip (s : KeyShard) (h : s.WF) :
    KeyShard.from_wire s.to_wire = some s := by
  have := keyshard_partial_roundtrip s [] h
  simp only [List.append_nil] at this
  simp [KeyShard.from_wire, this]

/-! ### C2 -/

/-- C2: Encryption round-trip — for every well-formed `KeyShard` and
every choice of the sampled 32-byte shard key and 12-byte nonce,
`KeyShard::encrypt` succeeds with some `(EncryptedKeyShard, codewords)`,
and `EncryptedKeyShard::decrypt` on those codewords returns the original
shard. -/
theorem claim_C2_encrypt_roundtrip (s : KeyShard) (key nonce : List Nat)
    (hs : s.WF) (hk1 : key.length = 32) (hk2 : ∀ b ∈ key, b < 256)
    (_hn : nonce.length = CHACHAPOLY_NONCE_LENGTH) :
    ∃ enc codewords,
      s.encrypt key nonce = some (enc, codewords) ∧
      enc.decrypt codewords = some s := by
  obtain ⟨hment, hmphrase⟩ := mnemonic_roundtrip key hk1 hk2
  refine ⟨{ nonce := nonce,
            ciphertext := chacha20poly1305Encrypt key nonce [] s.to_wire },
    (digitsLE 2048 24
      (digitsLEToNat 256 (key ++ [checksumByte key]))).map wordlist, ?_, ?_⟩
  · simp only [KeyShard.encrypt, hment]
  · simp only [EncryptedKeyShard.decrypt, hmphrase, chacha_roundtrip,
      keyshard_full_roundtrip s hs]

/-- Witness for C2 at a concrete shard, key and nonce. -/
theorem claim_C2_encrypt_roundtrip_witness :
    sampleKeyShard.WF ∧ (List.range 32).length = 32 ∧
    (∀ b ∈ List.range 32, b < 256) ∧
    (List.replicate 12 0 : List Nat).length = CHACHAPOLY_NONCE_LENGTH ∧
    ∃ enc codewords,
      sampleKeyShard.encrypt (List.range 32) (List.replicate 12 0) =
        some (enc, codewords) ∧
      enc.decrypt codewords = some sampleKeyShard :=
  ⟨by decide, by decide, by decide, by decide,
   claim_C2_encrypt_roundtrip sampleKeyShard (List.range 32)
     (List.replicate 12 0) (by decide) (by decide) (by decide) (by decide)⟩

end Paperback
